import Mathlib

/-!
# dnsstress: the command-line front end

A shallow embedding of `dnsstress.go` (package `main`): the `DNSProtocol` type
with its `Validate` method, the flag defaults registered by `init`, and the
body of `main` from the return of `flag.Parse` up to the call of `NewResolver`.

Go strings are byte sequences; they are embedded as lists of bytes.  Go `int`
values are embedded as `Int` (no arithmetic is performed on them by `main`).
The library function `strings.ToLower` and the result of `statsd.New` are
parameters of `main`, collected in `Env`.

The dispatcher that `main` constructs (`NewResolver`, `RunResolver`) is not in
the source file; its sender loop is modelled from the specification as an
interleaving of atomic actions.
-/

namespace Dnsstress

/-- One byte of a Go string. -/
abbrev Byte := Fin 256

/-- A Go `string`: an immutable sequence of bytes. -/
abbrev GoString := List Byte

/-- The bytes of an ASCII string literal of the source. -/
def lit (s : String) : GoString :=
  s.toList.map (fun c => Fin.ofNat c.toNat)

/-- The value of `math.MaxInt64`. -/
def MaxInt64 : Int := 2 ^ 63 - 1

/-- The constant `DNS DNSProtocol = "dns"`. -/
def DNS : GoString := lit "dns"

/-- The constant `DNSOverHTTPS DNSProtocol = "doh"`. -/
def DNSOverHTTPS : GoString := lit "doh"

/-- The method `DNSProtocol.String`: the conversion `string(d)`. -/
def DNSProtocol.String (d : GoString) : GoString := d

/-- The call `fmt.Errorf(pre + "%s", d)` where `d` is a string or a `Stringer`
    whose `String` method returns `d`: the error message is the text before the
    verb followed by the bytes of `d`. -/
def Errorf (pre : GoString) (d : GoString) : GoString := pre ++ d

/-- The method `DNSProtocol.Validate`.  The result `none` is the `nil` error,
    `some msg` is an error whose message is `msg`. -/
def DNSProtocol.Validate (d : GoString) : Option GoString :=
  if d = DNS ∨ d = DNSOverHTTPS then none
  else some (Errorf (lit "invalid protocol ") (DNSProtocol.String d))

deriving instance DecidableEq for Except

/-- The package-level flag variables. -/
structure Flags where
  concurrency : Int
  maxMessages : Int
  resolver : GoString
  runForever : Bool
  reqPerSec : Int
  dnsProtocol : GoString
  protocol : GoString
deriving DecidableEq

/-- The function `init`: every flag variable holds its registered default.
    `numCPU` is the value of `runtime.NumCPU()`. -/
def init (numCPU : Int) : Flags :=
  { concurrency := numCPU
    maxMessages := 100000
    reqPerSec := 0
    dnsProtocol := DNSProtocol.String DNS
    resolver := lit "127.0.0.1:53"
    protocol := lit "udp"
    runForever := false }

/-- The flags present on a command line that `flag.Parse` accepts, each with
    its parsed value; `none` stands for a flag that is not given. -/
structure Given where
  concurrency : Option Int
  m : Option Int
  t : Option Int
  d : Option GoString
  r : Option GoString
  p : Option GoString
  inf : Option Bool
deriving DecidableEq

/-- A command line without any flag. -/
def noFlags : Given :=
  { concurrency := none, m := none, t := none, d := none, r := none, p := none, inf := none }

/-- The effect of a successful `flag.Parse` on the flag variables: a flag that
    is given overwrites its variable, the others keep their default. -/
def flagParse (defaults : Flags) (g : Given) : Flags :=
  { concurrency := g.concurrency.getD defaults.concurrency
    maxMessages := g.m.getD defaults.maxMessages
    reqPerSec := g.t.getD defaults.reqPerSec
    dnsProtocol := g.d.getD defaults.dnsProtocol
    resolver := g.r.getD defaults.resolver
    protocol := g.p.getD defaults.protocol
    runForever := g.inf.getD defaults.runForever }

/-- The statsd client returned by `statsd.New`, identified by its address. -/
structure StatsdClient where
  addr : GoString
deriving DecidableEq

/-- What `main` takes from outside the source file: the processor count, the
    result of `statsd.New`, and the library function `strings.ToLower`. -/
structure Env where
  numCPU : Int
  statsdNew : GoString → Except GoString StatsdClient
  toLower : GoString → GoString

/-- The fields of the `ResolverOptions` literal built by `main`. -/
structure ResolverOptions where
  Concurrency : Int
  MaxMessages : Int
  RequestsPerSecond : Int
  Protocol : GoString
  DNSProtocol : GoString
deriving DecidableEq

/-- The arguments of the call `NewResolver(resolver, targetDomains[0], sdClient, opts)`. -/
structure NewResolverCall where
  resolver : GoString
  domain : GoString
  sdClient : StatsdClient
  opts : ResolverOptions
deriving DecidableEq

/-- How far `main` gets.
    * `usageExit`: `flag.Usage()` followed by `os.Exit(1)`;
    * `logFatal msg`: `log.Fatal`/`log.Fatalf` prints `msg` and calls `os.Exit(1)`;
    * `panicIndex i n`: run-time panic, index `i` out of range for length `n`;
    * `newResolver tds call`: `NewResolver` is called with `call` while the
      local slice `targetDomains` holds `tds`. -/
inductive Outcome where
  | usageExit
  | logFatal (msg : GoString)
  | panicIndex (i : Int) (n : Int)
  | newResolver (targetDomains : List GoString) (call : NewResolverCall)
deriving DecidableEq

/-- The exit status of the process for the outcomes that end it: `os.Exit(1)`
    for usage and fatal log, status 2 for an unrecovered panic. -/
def Outcome.exitStatus : Outcome → Option Int
  | .usageExit => some 1
  | .logFatal _ => some 1
  | .panicIndex _ _ => some 2
  | .newResolver _ _ => none

/-- Whether `flag.Usage()` has printed the usage text. -/
def Outcome.usagePrinted : Outcome → Bool
  | .usageExit => true
  | _ => false

/-- The call `strings.Contains(s, substr)`: `substr` occurs in `s` as a
    contiguous run of bytes. -/
def Contains (s substr : GoString) : Bool :=
  s.tails.any (fun t => substr.isPrefixOf t)

/-- The index expression `s[i]` with a Go `int` index: `none` is the
    out-of-range panic. -/
def byteAt (s : GoString) (i : Int) : Option Byte :=
  if 0 ≤ i ∧ i < (s.length : Int) then s.get? i.toNat else none

/-- The loop `for index, element := range flag.Args()` of `main`, started at
    position `index` with the remaining arguments: each iteration reads
    `element[len(element)-1]` and stores into `targetDomains[index]`.  The
    error value is the failing index and the length it was checked against. -/
def normaliseFrom : Nat → List GoString → List GoString → Except (Int × Int) (List GoString)
  | _, [], targetDomains => .ok targetDomains
  | index, element :: rest, targetDomains =>
    match byteAt element ((element.length : Int) - 1) with
    | none => .error ((element.length : Int) - 1, (element.length : Int))
    | some b =>
      if b = 46 then
        normaliseFrom (index + 1) rest (targetDomains.set index element)
      else
        normaliseFrom (index + 1) rest (targetDomains.set index (element ++ lit "."))

/-- Lines 108-115 of `main`: `targetDomains := make([]string, flag.NArg())`
    followed by the normalisation loop. -/
def normalise (args : List GoString) : Except (Int × Int) (List GoString) :=
  normaliseFrom 0 args (List.replicate args.length [])

/-- Lines 117-125 of `main`: the value of `protocol` after the sub-protocol
    check, or the message given to `log.Fatalf`. -/
def checkProtocol (toLower : GoString → GoString) (dnsProtocol protocol : GoString) :
    Except GoString GoString :=
  if dnsProtocol = DNSProtocol.String DNS then
    let protocol := toLower protocol
    if protocol = lit "udp" then .ok protocol
    else if protocol = lit "tcp" then .ok protocol
    else .error (Errorf (lit "unknown protocol ") protocol)
  else .ok protocol

/-- The function `main` from the return of `flag.Parse` to the call of
    `NewResolver`; `args` is `flag.Args()`. -/
def main (env : Env) (given : Given) (args : List GoString) : Outcome :=
  let f := flagParse (init env.numCPU) given
  if (args.length : Int) < 1 then .usageExit
  else if f.concurrency < 1 then .usageExit
  else
    match env.statsdNew (lit "127.0.0.1:8125") with
    | .error err => .logFatal err
    | .ok sdClient =>
      if DNSProtocol.Validate f.dnsProtocol ≠ none then .usageExit
      else
        let resolver :=
          if ¬ Contains f.resolver (lit ":") then f.resolver ++ lit ":53" else f.resolver
        match normalise args with
        | .error (i, n) => .panicIndex i n
        | .ok targetDomains =>
          match checkProtocol env.toLower f.dnsProtocol f.protocol with
          | .error msg => .logFatal msg
          | .ok protocol =>
            let maxMessages := if f.runForever then MaxInt64 else f.maxMessages
            match targetDomains.get? 0 with
            | none => .panicIndex 0 (targetDomains.length : Int)
            | some domain =>
              .newResolver targetDomains
                { resolver := resolver
                  domain := domain
                  sdClient := sdClient
                  opts :=
                    { Concurrency := f.concurrency
                      MaxMessages := maxMessages
                      RequestsPerSecond := f.reqPerSec
                      Protocol := protocol
                      DNSProtocol := f.dnsProtocol } }

/-- Lower-casing of one ASCII byte. -/
def asciiLower (b : Byte) : Byte :=
  if 65 ≤ b.val ∧ b.val ≤ 90 then Fin.ofNat (b.val + 32) else b

/-- The function `strings.ToLower` on strings made of ASCII bytes only. -/
def asciiToLower (s : GoString) : GoString := s.map asciiLower

/-- An environment for concrete runs: four processors, `statsd.New` succeeds,
    and lower-casing is the ASCII one. -/
def sampleEnv : Env :=
  { numCPU := 4
    statsdNew := fun addr => .ok { addr := addr }
    toLower := asciiToLower }

/-- An environment in which `statsd.New` returns an error. -/
def noStatsdEnv : Env :=
  { numCPU := 4
    statsdNew := fun _ => .error (lit "statsd: no client")
    toLower := asciiToLower }

/-- The fully-qualified form of a domain name: the name itself when its last
    byte is `.`, the name followed by one `.` otherwise. -/
def fqdn (element : GoString) : GoString :=
  if element.getLast? = some 46 then element else element ++ lit "."

/-! ## The dispatcher

`NewResolver` and `RunResolver` are called by `main` but are not part of the
source file; the sender loop below follows section 4.4 of the specification. -/

/-- Modelled from the spec: the dispatcher configuration (`DispatchConfig`,
    section 3) that `NewResolver` builds, which is missing from the source:
    the number of sender loops, the send cap (`none` is "unbounded") and the
    number of target domains. -/
structure DispatchConfig where
  concurrency : Nat
  cap : Option Nat
  domains : Nat
deriving DecidableEq

/-- Modelled from the spec: where one sender loop of the missing dispatcher
    stands (section 4.4): at the top of an iteration, holding a claimed slot
    inside `RateLimiter.Acquire()`, about to call `DomainSource.Next()`, inside
    `Transport.Send` for the domain with the given index, or exited. -/
inductive Worker where
  | loopTop
  | acquiring
  | fetching
  | sending (domain : Nat)
  | exited
deriving DecidableEq

/-- Modelled from the spec: the shared `RunState` of the missing dispatcher
    (section 3) together with the domain cursor and the position of every
    sender loop. -/
structure RunState where
  claimed : Nat
  succeeded : Nat
  failed : Nat
  stop : Bool
  cursor : Nat
  workers : List Worker
deriving DecidableEq

/-- Modelled from the spec: the atomic actions of a run of the missing
    dispatcher: worker `w` executes the top of its loop (stop check and slot
    claim), its `Acquire()` returns, it calls `Next()`, its `Send` returns
    with success or failure, or `Stop()` sets the stop flag. -/
inductive Event where
  | iterate (w : Nat)
  | granted (w : Nat)
  | next (w : Nat)
  | sent (w : Nat) (success : Bool)
  | stop
deriving DecidableEq

/-- Modelled from the spec: the state in which `RunResolver` of the missing
    dispatcher starts its sender loops. -/
def start (cfg : DispatchConfig) : RunState :=
  { claimed := 0, succeeded := 0, failed := 0, stop := false, cursor := 0
    workers := List.replicate cfg.concurrency Worker.loopTop }

/-- Modelled from the spec: one atomic action of the sender loop of the missing
    dispatcher (section 4.4).  At the loop top a worker exits if the stop flag
    is set; otherwise it claims a slot in one indivisible action: it increments
    the claimed counter and, if a finite cap is configured and the
    pre-increment value equals the cap, decrements it back and exits.  `none`
    means that the action is not enabled. -/
def step (cfg : DispatchConfig) (s : RunState) : Event → Option RunState
  | .stop => some { s with stop := true }
  | .iterate w =>
    match s.workers.get? w with
    | some .loopTop =>
      if s.stop then some { s with workers := s.workers.set w .exited }
      else
        let pre := s.claimed
        let incremented := pre + 1
        if cfg.cap = some pre then
          some { s with claimed := incremented - 1, workers := s.workers.set w .exited }
        else
          some { s with claimed := incremented, workers := s.workers.set w .acquiring }
    | _ => none
  | .granted w =>
    match s.workers.get? w with
    | some .acquiring => some { s with workers := s.workers.set w .fetching }
    | _ => none
  | .next w =>
    match s.workers.get? w with
    | some .fetching =>
      some { s with cursor := s.cursor + 1
                    workers := s.workers.set w (.sending (s.cursor % cfg.domains)) }
    | _ => none
  | .sent w success =>
    match s.workers.get? w with
    | some (.sending _) =>
      some { s with succeeded := if success then s.succeeded + 1 else s.succeeded
                    failed := if success then s.failed else s.failed + 1
                    workers := s.workers.set w .loopTop }
    | _ => none

/-- Modelled from the spec: a run of the missing dispatcher, one interleaving
    of atomic actions of its workers and of `Stop()`. -/
def run (cfg : DispatchConfig) : RunState → List Event → Option RunState
  | s, [] => some s
  | s, e :: es =>
    match step cfg s e with
    | none => none
    | some t => run cfg t es

/-- Modelled from the spec: normal completion of a run of the missing
    dispatcher: every worker has exited and `Stop()` was not called. -/
def completedNormally (s : RunState) : Bool :=
  !s.stop && s.workers.all (fun w => w == Worker.exited)

/-- A worker that holds a claimed slot whose outcome is not yet counted. -/
def Worker.inFlight : Worker → Bool
  | .acquiring => true
  | .fetching => true
  | .sending _ => true
  | _ => false

/-- One full iteration of worker 0 ending in a successful send. -/
def oneRound : List Event :=
  [Event.iterate 0, Event.granted 0, Event.next 0, Event.sent 0 true]

/-- The schedule in which worker 0 performs `n` iterations in a row. -/
def rounds : Nat → List Event
  | 0 => []
  | n + 1 => oneRound ++ rounds n

/-- The schedule in which workers `k`, `k+1`, ..., `k+n-1` pass the loop top
    once each. -/
def iterateFrom (k : Nat) : Nat → List Event
  | 0 => []
  | n + 1 => Event.iterate k :: iterateFrom (k + 1) n

/-- The invariant of a run with `C` workers and the finite cap `M`: every
    claimed slot is counted as succeeded, failed or still held by a worker, the
    claimed counter does not exceed the cap, and while `Stop()` has not been
    called a worker has exited only if the cap is reached. -/
def Inv (C M : Nat) (s : RunState) : Prop :=
  s.workers.length = C ∧
  s.claimed = s.succeeded + s.failed + s.workers.countP Worker.inFlight ∧
  s.claimed ≤ M ∧
  (s.stop = false → Worker.exited ∈ s.workers → s.claimed = M)

end Dnsstress

namespace Dnsstress

/-! ## Helper lemmas -/

theorem lit_dot : lit "." = [46] := by decide

theorem lit_colon : lit ":" = [58] := by decide

theorem byteAt_last_nil : byteAt [] (((([] : GoString).length : Nat) : Int) - 1) = none := by
  decide

theorem byteAt_last_of_ne_nil (e : GoString) (he : e ≠ []) :
    byteAt e ((e.length : Int) - 1) = e.getLast? := by
  have hpos : 0 < e.length := List.length_pos.mpr he
  have h1 : (0 : Int) ≤ (e.length : Int) - 1 ∧ (e.length : Int) - 1 < (e.length : Int) := by
    constructor <;> omega
  have h2 : ((e.length : Int) - 1).toNat = e.length - 1 := by omega
  unfold byteAt
  rw [if_pos h1, h2, List.getLast?_eq_getElem?, List.get?_eq_getElem?]

theorem byteAt_last_isSome_iff (e : GoString) :
    (byteAt e ((e.length : Int) - 1)).isSome = true ↔ e ≠ [] := by
  constructor
  · intro h he
    subst he
    rw [byteAt_last_nil] at h
    exact absurd h (by decide)
  · intro he
    rw [byteAt_last_of_ne_nil e he]
    cases e with
    | nil => exact absurd rfl he
    | cons a l => simp [List.getLast?_cons_cons, List.getLast?_eq_getLast]

theorem normaliseFrom_step (index : Nat) (element : GoString) (rest tds : List GoString)
    (he : element ≠ []) :
    normaliseFrom index (element :: rest) tds =
      normaliseFrom (index + 1) rest (tds.set index (fqdn element)) := by
  have hb := byteAt_last_of_ne_nil element he
  obtain ⟨b, hlast⟩ : ∃ b, element.getLast? = some b := by
    cases element with
    | nil => exact absurd rfl he
    | cons a l => exact ⟨_, List.getLast?_eq_getLast _ (by simp)⟩
  rw [hlast] at hb
  rw [normaliseFrom, hb]
  simp only [fqdn, hlast, Option.some.injEq]
  by_cases h46 : b = 46
  · simp [h46]
  · simp [h46]

theorem normaliseFrom_nil_head (index : Nat) (rest tds : List GoString) :
    normaliseFrom index ([] :: rest) tds = .error (-1, 0) := by
  rw [normaliseFrom, byteAt_last_nil]
  rfl

theorem normaliseFrom_ok (args : List GoString) :
    ∀ pre : List GoString, (∀ e ∈ args, e ≠ []) →
      normaliseFrom pre.length args (pre ++ List.replicate args.length []) =
        .ok (pre ++ args.map fqdn) := by
  induction args with
  | nil => intro pre _; simp [normaliseFrom]
  | cons a l ih =>
    intro pre h
    have ha : a ≠ [] := h a (List.mem_cons_self _ _)
    have hl : ∀ e ∈ l, e ≠ [] := fun e he => h e (List.mem_cons_of_mem _ he)
    rw [normaliseFrom_step _ _ _ _ ha]
    have hset : (pre ++ List.replicate (a :: l).length []).set pre.length (fqdn a) =
        (pre ++ [fqdn a]) ++ List.replicate l.length [] := by
      simp [List.replicate_succ, List.set_append]
    rw [hset]
    have := ih (pre ++ [fqdn a]) hl
    simpa using this

theorem normaliseFrom_error (args : List GoString) :
    ∀ (index : Nat) (tds : List GoString), (∃ e ∈ args, e = []) →
      normaliseFrom index args tds = .error (-1, 0) := by
  induction args with
  | nil => intro _ _ h; obtain ⟨e, he, _⟩ := h; cases he
  | cons a l ih =>
    intro index tds h
    by_cases ha : a = []
    · subst ha; exact normaliseFrom_nil_head _ _ _
    · rw [normaliseFrom_step _ _ _ _ ha]
      apply ih
      obtain ⟨e, he, hnil⟩ := h
      rcases List.mem_cons.mp he with rfl | hmem
      · exact absurd hnil ha
      · exact ⟨e, hmem, hnil⟩

theorem normalise_ok (args : List GoString) (h : ∀ e ∈ args, e ≠ []) :
    normalise args = .ok (args.map fqdn) := by
  have := normaliseFrom_ok args [] h
  simpa [normalise] using this

theorem normalise_error (args : List GoString) (h : ∃ e ∈ args, e = []) :
    normalise args = .error (-1, 0) :=
  normaliseFrom_error args 0 _ h

theorem normalise_ok_iff (args tds : List GoString) :
    normalise args = .ok tds ↔ (∀ e ∈ args, e ≠ []) ∧ tds = args.map fqdn := by
  constructor
  · intro h
    by_cases hall : ∀ e ∈ args, e ≠ []
    · rw [normalise_ok args hall] at h
      exact ⟨hall, by injection h with h; exact h.symm⟩
    · have hex : ∃ e ∈ args, e = [] := by
        by_contra hne
        exact hall (fun e he hnil => hne ⟨e, he, hnil⟩)
      rw [normalise_error args hex] at h
      cases h
  · rintro ⟨hall, rfl⟩
    exact normalise_ok args hall

theorem fqdn_getLast (e : GoString) : (fqdn e).getLast? = some 46 := by
  unfold fqdn
  split
  · assumption
  · simp [lit_dot]

theorem Contains_singleton (s : GoString) (b : Byte) : Contains s [b] = true ↔ b ∈ s := by
  induction s with
  | nil => simp [Contains, List.isPrefixOf]
  | cons a l ih =>
    have : Contains (a :: l) [b] = ((b == a) || Contains l [b]) := by
      simp [Contains, List.isPrefixOf]
    rw [this, Bool.or_eq_true, ih, List.mem_cons]
    simp

/-- What is known when `main` reaches the call of `NewResolver`. -/
theorem main_newResolver_inv {env : Env} {g : Given} {args tds : List GoString}
    {c : NewResolverCall} (h : main env g args = .newResolver tds c) :
    args ≠ [] ∧ 1 ≤ (flagParse (init env.numCPU) g).concurrency ∧
    DNSProtocol.Validate (flagParse (init env.numCPU) g).dnsProtocol = none ∧
    normalise args = .ok tds ∧
    ∃ sd protocol domain,
      env.statsdNew (lit "127.0.0.1:8125") = .ok sd ∧
      checkProtocol env.toLower (flagParse (init env.numCPU) g).dnsProtocol
        (flagParse (init env.numCPU) g).protocol = .ok protocol ∧
      tds.get? 0 = some domain ∧
      c = { resolver :=
              if ¬ Contains (flagParse (init env.numCPU) g).resolver (lit ":") then
                (flagParse (init env.numCPU) g).resolver ++ lit ":53"
              else (flagParse (init env.numCPU) g).resolver
            domain := domain
            sdClient := sd
            opts :=
              { Concurrency := (flagParse (init env.numCPU) g).concurrency
                MaxMessages :=
                  if (flagParse (init env.numCPU) g).runForever then MaxInt64
                  else (flagParse (init env.numCPU) g).maxMessages
                RequestsPerSecond := (flagParse (init env.numCPU) g).reqPerSec
                Protocol := protocol
                DNSProtocol := (flagParse (init env.numCPU) g).dnsProtocol } } := by
  unfold main at h
  simp only at h
  split at h
  · cases h
  · rename_i hlen
    split at h
    · cases h
    · rename_i hconc
      split at h
      · cases h
      · rename_i sd hsd
        split at h
        · cases h
        · rename_i hval
          split at h
          · cases h
          · rename_i tds0 hnorm
            split at h
            · cases h
            · rename_i protocol hproto
              split at h
              · cases h
              · rename_i domain hdom
                injection h with h1 h2
                subst h1
                refine ⟨?_, ?_, ?_, hnorm, sd, protocol, domain, hsd, hproto, hdom, h2.symm⟩
                · intro hnil
                  subst hnil
                  exact hlen (by decide)
                · omega
                · exact not_not.mp hval

/-- The outcome of `main` once every check before the call has passed. -/
theorem main_eq_newResolver {env : Env} {g : Given} {args : List GoString}
    {sd : StatsdClient} {protocol domain : GoString} {tds : List GoString}
    (hargs : args ≠ [])
    (hconc : 1 ≤ (flagParse (init env.numCPU) g).concurrency)
    (hsd : env.statsdNew (lit "127.0.0.1:8125") = .ok sd)
    (hval : DNSProtocol.Validate (flagParse (init env.numCPU) g).dnsProtocol = none)
    (hnorm : normalise args = .ok tds)
    (hproto : checkProtocol env.toLower (flagParse (init env.numCPU) g).dnsProtocol
        (flagParse (init env.numCPU) g).protocol = .ok protocol)
    (hdom : tds.get? 0 = some domain) :
    main env g args = .newResolver tds
      { resolver :=
          if ¬ Contains (flagParse (init env.numCPU) g).resolver (lit ":") then
            (flagParse (init env.numCPU) g).resolver ++ lit ":53"
          else (flagParse (init env.numCPU) g).resolver
        domain := domain
        sdClient := sd
        opts :=
          { Concurrency := (flagParse (init env.numCPU) g).concurrency
            MaxMessages :=
              if (flagParse (init env.numCPU) g).runForever then MaxInt64
              else (flagParse (init env.numCPU) g).maxMessages
            RequestsPerSecond := (flagParse (init env.numCPU) g).reqPerSec
            Protocol := protocol
            DNSProtocol := (flagParse (init env.numCPU) g).dnsProtocol } } := by
  have hlen : ¬ ((args.length : Int) < 1) := by
    have : 0 < args.length := List.length_pos.mpr hargs
    omega
  have hc : ¬ ((flagParse (init env.numCPU) g).concurrency < 1) := by omega
  unfold main
  simp only [hlen, hc, if_false, hsd, hval, ne_eq, not_true_eq_false, hnorm, hproto, hdom]

theorem checkProtocol_ok_inv {toLower : GoString → GoString} {d p protocol : GoString}
    (h : checkProtocol toLower d p = .ok protocol) :
    (d = lit "dns" → protocol = toLower p ∧ (protocol = lit "udp" ∨ protocol = lit "tcp")) ∧
    (d ≠ lit "dns" → protocol = p) := by
  unfold checkProtocol at h
  have hD : DNSProtocol.String DNS = lit "dns" := rfl
  rw [hD] at h
  by_cases hd : d = lit "dns"
  · rw [if_pos hd] at h
    simp only at h
    refine ⟨fun _ => ?_, fun hne => absurd hd hne⟩
    split at h
    · rename_i hu
      injection h with h
      exact ⟨h.symm, Or.inl (h ▸ hu)⟩
    · split at h
      · rename_i ht
        injection h with h
        exact ⟨h.symm, Or.inr (h ▸ ht)⟩
      · cases h
  · rw [if_neg hd] at h
    injection h with h
    exact ⟨fun hdd => absurd hdd hd, fun _ => h.symm⟩

theorem validate_none_iff (d : GoString) :
    DNSProtocol.Validate d = none ↔ (d = lit "dns" ∨ d = lit "doh") := by
  have h1 : DNS = lit "dns" := rfl
  have h2 : DNSOverHTTPS = lit "doh" := rfl
  unfold DNSProtocol.Validate
  rw [h1, h2]
  by_cases h : d = lit "dns" ∨ d = lit "doh"
  · simp [h]
  · simp [h]

/-! ## The claims -/

/-- C1: target-domain normalisation in `main`.  For every non-empty list of
    positional arguments, each a non-empty string, the normalisation loop
    completes; `targetDomains` has the length of the argument list; its i-th
    element is the i-th argument itself when that argument ends in `.` (byte
    46) and the argument followed by one `.` otherwise; every element ends in
    `.`; and this list is the value of `targetDomains` whenever `main` goes on
    to call `NewResolver`. -/
theorem normalise_target_domains (args : List GoString) (hne : args ≠ [])
    (hall : ∀ e ∈ args, e ≠ []) :
    ∃ tds, normalise args = .ok tds ∧ tds.length = args.length ∧
      (∀ i e, args.get? i = some e →
        tds.get? i = some (if e.getLast? = some 46 then e else e ++ [46])) ∧
      (∀ t ∈ tds, t.getLast? = some 46) ∧
      (∀ env g tds2 c, main env g args = .newResolver tds2 c → tds2 = tds) := by
  have _ := hne
  refine ⟨args.map fqdn, normalise_ok args hall, by simp, ?_, ?_, ?_⟩
  · intro i e hi
    rw [List.get?_eq_getElem?, List.getElem?_map, ← List.get?_eq_getElem?, hi]
    simp [fqdn, lit_dot]
  · intro t ht
    obtain ⟨e, _, rfl⟩ := List.mem_map.mp ht
    exact fqdn_getLast e
  · intro env g tds2 c h
    have hn := (main_newResolver_inv h).2.2.2.1
    rw [normalise_ok args hall] at hn
    injection hn with hn
    exact hn.symm

/-- Witness for C1 on the arguments `a.example` and `b.example.`. -/
theorem normalise_target_domains_witness :
    ∃ tds, normalise [lit "a.example", lit "b.example."] = .ok tds ∧
      tds.length = [lit "a.example", lit "b.example."].length ∧
      (∀ i e, [lit "a.example", lit "b.example."].get? i = some e →
        tds.get? i = some (if e.getLast? = some 46 then e else e ++ [46])) ∧
      (∀ t ∈ tds, t.getLast? = some 46) ∧
      (∀ env g tds2 c,
        main env g [lit "a.example", lit "b.example."] = .newResolver tds2 c → tds2 = tds) :=
  normalise_target_domains [lit "a.example", lit "b.example."] (by decide) (by decide)

/-- C5: send cap selection in `main`.  Whenever `main` calls `NewResolver`,
    the `MaxMessages` option is `math.MaxInt64` if `-inf` is set, whatever
    `-m` is, and otherwise the `-m` value, which is 100000 when `-m` is not
    given; `math.MaxInt64` is 2^63-1. -/
theorem main_send_cap (env : Env) (g : Given) (args tds : List GoString)
    (c : NewResolverCall) (h : main env g args = .newResolver tds c) :
    c.opts.MaxMessages = (if g.inf.getD false = true then MaxInt64 else g.m.getD 100000) ∧
    MaxInt64 = 9223372036854775807 := by
  obtain ⟨_, _, _, _, sd, protocol, domain, _, _, _, hc⟩ := main_newResolver_inv h
  subst hc
  refine ⟨?_, by decide⟩
  simp [flagParse, init]

/-- Witness for C5: `-inf -m 5` hands over `math.MaxInt64`. -/
theorem main_send_cap_witness :
    (({ resolver := lit "127.0.0.1:53", domain := lit "a.example.",
        sdClient := { addr := lit "127.0.0.1:8125" },
        opts := { Concurrency := 4, MaxMessages := MaxInt64, RequestsPerSecond := 0,
                  Protocol := lit "udp", DNSProtocol := lit "dns" } } :
          NewResolverCall).opts.MaxMessages =
        (if ({ noFlags with m := some 5, inf := some true } : Given).inf.getD false = true
          then MaxInt64
          else ({ noFlags with m := some 5, inf := some true } : Given).m.getD 100000)) ∧
      MaxInt64 = 9223372036854775807 :=
  main_send_cap sampleEnv { noFlags with m := some 5, inf := some true } [lit "a.example"]
    [lit "a.example."] _ (by decide)

/-- C6: `DNSProtocol.Validate` returns `nil` exactly for the strings `dns`
    and `doh` (compared byte by byte, hence case-sensitively), and for every
    other string an error whose message is `invalid protocol ` followed by the
    string. -/
theorem validate_accepts_exactly (d : GoString) :
    (DNSProtocol.Validate d = none ↔ (d = lit "dns" ∨ d = lit "doh")) ∧
    DNSProtocol.Validate d =
      (if d = lit "dns" ∨ d = lit "doh" then none else some (lit "invalid protocol " ++ d)) := by
  refine ⟨validate_none_iff d, ?_⟩
  by_cases h : d = lit "dns" ∨ d = lit "doh"
  · rw [if_pos h]
    exact (validate_none_iff d).mpr h
  · rw [if_neg h]
    have h1 : DNS = lit "dns" := rfl
    have h2 : DNSOverHTTPS = lit "doh" := rfl
    unfold DNSProtocol.Validate
    rw [h1, h2, if_neg h]
    rfl

/-- C9: configuration validity at dispatcher construction.  Whenever `main`
    reaches the call of `NewResolver`: `Concurrency` is at least 1;
    `DNSProtocol` is `dns` or `doh`; the resolver endpoint contains `:`; the
    domain ends in `.`; and if `DNSProtocol` is `dns`, then `Protocol` is the
    lower-cased value of the `-p` flag variable and is `udp` or `tcp`. -/
theorem main_config_valid (env : Env) (g : Given) (args tds : List GoString)
    (c : NewResolverCall) (h : main env g args = .newResolver tds c) :
    1 ≤ c.opts.Concurrency ∧
    (c.opts.DNSProtocol = lit "dns" ∨ c.opts.DNSProtocol = lit "doh") ∧
    Contains c.resolver (lit ":") = true ∧
    c.domain.getLast? = some 46 ∧
    (c.opts.DNSProtocol = lit "dns" →
      c.opts.Protocol = env.toLower (g.p.getD (lit "udp")) ∧
      (c.opts.Protocol = lit "udp" ∨ c.opts.Protocol = lit "tcp")) := by
  obtain ⟨_, hconc, hval, hnorm, sd, protocol, domain, _, hproto, hdom, hc⟩ :=
    main_newResolver_inv h
  subst hc
  refine ⟨hconc, (validate_none_iff _).mp hval, ?_, ?_, ?_⟩
  · simp only
    by_cases hcol : Contains (flagParse (init env.numCPU) g).resolver (lit ":") = true
    · simp [hcol]
    · simp only [hcol, not_false_eq_true, if_true]
      rw [lit_colon, Contains_singleton]
      have : lit ":53" = [58, 53, 51] := by decide
      rw [this]
      simp
  · obtain ⟨_, htds⟩ := (normalise_ok_iff args tds).mp hnorm
    subst htds
    simp only
    rw [List.get?_eq_getElem?, List.getElem?_map, ← List.get?_eq_getElem?] at hdom
    cases hget : args.get? 0 with
    | none => rw [hget] at hdom; cases hdom
    | some e =>
      rw [hget] at hdom
      injection hdom with hdom
      rw [← hdom]
      exact fqdn_getLast e
  · intro hd
    have := (checkProtocol_ok_inv hproto).1 hd
    simpa [flagParse, init] using this

/-- Witness for C9 on `-p TCP a.example`. -/
theorem main_config_valid_witness :
    1 ≤ (4 : Int) ∧
    (lit "dns" = lit "dns" ∨ lit "dns" = lit "doh") ∧
    Contains (lit "127.0.0.1:53") (lit ":") = true ∧
    (lit "a.example.").getLast? = some 46 ∧
    (lit "dns" = lit "dns" →
      lit "tcp" = sampleEnv.toLower
        (({ noFlags with p := some (lit "TCP") } : Given).p.getD (lit "udp")) ∧
      (lit "tcp" = lit "udp" ∨ lit "tcp" = lit "tcp")) :=
  main_config_valid sampleEnv { noFlags with p := some (lit "TCP") } [lit "a.example"]
    [lit "a.example."]
    { resolver := lit "127.0.0.1:53", domain := lit "a.example.",
      sdClient := { addr := lit "127.0.0.1:8125" },
      opts := { Concurrency := 4, MaxMessages := 100000, RequestsPerSecond := 0,
                Protocol := lit "tcp", DNSProtocol := lit "dns" } }
    (by decide)

/-- C7: the dispatcher is constructed with only the first configured domain.
    If `main` calls `NewResolver` with arguments `c` on the positional
    arguments `x :: xs`, then on the same environment and flags and any other
    list `x :: ys` of non-empty positional arguments it calls `NewResolver`
    with the same arguments `c`, and the domain passed is the normalised form
    of `x`: the later positional arguments do not influence the call. -/
theorem main_first_domain_only (env : Env) (g : Given) (x : GoString)
    (xs ys tds : List GoString) (c : NewResolverCall)
    (hys : ∀ e ∈ ys, e ≠ [])
    (h : main env g (x :: xs) = .newResolver tds c) :
    (∃ tds2, main env g (x :: ys) = .newResolver tds2 c) ∧ c.domain = fqdn x := by
  obtain ⟨_, hconc, hval, hnorm, sd, protocol, domain, hsd, hproto, hdom, hc⟩ :=
    main_newResolver_inv h
  obtain ⟨hall, htds⟩ := (normalise_ok_iff (x :: xs) tds).mp hnorm
  subst htds
  have hx : x ≠ [] := hall x (List.mem_cons_self _ _)
  have hdomain : domain = fqdn x := by
    simp only [List.map_cons, List.get?_cons_zero, Option.some.injEq] at hdom
    exact hdom.symm
  subst hdomain
  have hall2 : ∀ e ∈ x :: ys, e ≠ [] := by
    intro e he
    rcases List.mem_cons.mp he with rfl | hmem
    · exact hx
    · exact hys e hmem
  refine ⟨⟨(x :: ys).map fqdn, ?_⟩, by rw [hc]⟩
  rw [hc]
  exact main_eq_newResolver (List.cons_ne_nil _ _) hconc hsd hval
    (normalise_ok _ hall2) hproto (by simp)

/-- Witness for C7: `a.example b.example` against `a.example c.example d.example.`. -/
theorem main_first_domain_only_witness :
    (∃ tds2, main sampleEnv noFlags [lit "a.example", lit "c.example", lit "d.example."] =
      .newResolver tds2
        { resolver := lit "127.0.0.1:53", domain := lit "a.example.",
          sdClient := { addr := lit "127.0.0.1:8125" },
          opts := { Concurrency := 4, MaxMessages := 100000, RequestsPerSecond := 0,
                    Protocol := lit "udp", DNSProtocol := lit "dns" } }) ∧
    lit "a.example." = fqdn (lit "a.example") :=
  main_first_domain_only sampleEnv noFlags (lit "a.example") [lit "b.example"]
    [lit "c.example", lit "d.example."] [lit "a.example.", lit "b.example."]
    { resolver := lit "127.0.0.1:53", domain := lit "a.example.",
      sdClient := { addr := lit "127.0.0.1:8125" },
      opts := { Concurrency := 4, MaxMessages := 100000, RequestsPerSecond := 0,
                Protocol := lit "udp", DNSProtocol := lit "dns" } }
    (by decide) (by decide)

/-- C10: index safety of the normalisation loop.  The access
    `element[len(element)-1]` is in bounds for every positional argument if and
    only if every positional argument is non-empty, and the loop completes
    under the same condition.  When `main` reaches the loop (at least one
    positional argument, `-concurrency` at least 1, `statsd.New` succeeded, the
    `-d` value valid) and some positional argument is empty, `main` panics
    with index -1 out of range for length 0: the usage text is not printed,
    the exit status is not 1, and `NewResolver` is not called. -/
theorem normalise_index_safety (env : Env) (g : Given) (args : List GoString)
    (sd : StatsdClient)
    (hargs : args ≠ [])
    (hconc : 1 ≤ (flagParse (init env.numCPU) g).concurrency)
    (hsd : env.statsdNew (lit "127.0.0.1:8125") = .ok sd)
    (hval : DNSProtocol.Validate (flagParse (init env.numCPU) g).dnsProtocol = none) :
    ((∀ e ∈ args, (byteAt e ((e.length : Int) - 1)).isSome = true) ↔ (∀ e ∈ args, e ≠ [])) ∧
    ((∃ tds, normalise args = .ok tds) ↔ (∀ e ∈ args, e ≠ [])) ∧
    ((∃ e ∈ args, e = []) →
      main env g args = .panicIndex (-1) 0 ∧
      (main env g args).usagePrinted = false ∧
      (main env g args).exitStatus ≠ some 1 ∧
      ∀ tds c, main env g args ≠ .newResolver tds c) := by
  refine ⟨?_, ?_, ?_⟩
  · constructor
    · intro h e he
      exact (byteAt_last_isSome_iff e).mp (h e he)
    · intro h e he
      exact (byteAt_last_isSome_iff e).mpr (h e he)
  · constructor
    · rintro ⟨tds, h⟩
      exact ((normalise_ok_iff args tds).mp h).1
    · intro h
      exact ⟨_, normalise_ok args h⟩
  · intro hex
    have hlen : ¬ ((args.length : Int) < 1) := by
      have : 0 < args.length := List.length_pos.mpr hargs
      omega
    have hc : ¬ ((flagParse (init env.numCPU) g).concurrency < 1) := by omega
    have hmain : main env g args = .panicIndex (-1) 0 := by
      unfold main
      simp only [hlen, hc, if_false, hsd, hval, ne_eq, not_true_eq_false,
        normalise_error args hex]
    rw [hmain]
    refine ⟨rfl, rfl, by decide, ?_⟩
    intro tds c hcontra
    cases hcontra

/-- Witness for C10 on the arguments `a.example` and the empty string. -/
theorem normalise_index_safety_witness :
    main sampleEnv noFlags [lit "a.example", []] = .panicIndex (-1) 0 :=
  ((normalise_index_safety sampleEnv noFlags [lit "a.example", []]
    { addr := lit "127.0.0.1:8125" } (by decide) (by decide) rfl (by decide)).2.2
      ⟨[], by decide, rfl⟩).1

/-- C3 at the input `-r ::1`: the resolver given is a bare IPv6 literal without
    a port, it contains `:`, and `main` hands it to `NewResolver` unchanged,
    not followed by `:53`. -/
theorem main_resolver_bare_ipv6 :
    main sampleEnv { noFlags with r := some (lit "::1") } [lit "example.com"] =
      .newResolver [lit "example.com."]
        { resolver := lit "::1", domain := lit "example.com.",
          sdClient := { addr := lit "127.0.0.1:8125" },
          opts := { Concurrency := 4, MaxMessages := 100000, RequestsPerSecond := 0,
                    Protocol := lit "udp", DNSProtocol := lit "dns" } } ∧
    lit "::1" ≠ lit "::1" ++ lit ":53" := by
  decide

/-- C2 at the input `a.example b.example`: `targetDomains` holds both
    normalised names, but the call of `NewResolver` receives the single domain
    `a.example.`; the second name is not handed over. -/
theorem main_passes_single_domain :
    main sampleEnv noFlags [lit "a.example", lit "b.example"] =
      .newResolver [lit "a.example.", lit "b.example."]
        { resolver := lit "127.0.0.1:53", domain := lit "a.example.",
          sdClient := { addr := lit "127.0.0.1:8125" },
          opts := { Concurrency := 4, MaxMessages := 100000, RequestsPerSecond := 0,
                    Protocol := lit "udp", DNSProtocol := lit "dns" } } := by
  decide

/-- C4 fails as stated: with `-p SCTP` the process ends through `log.Fatalf`
    with the message `unknown protocol sctp` and the usage text is not printed;
    with `-p UDP`, a value that is neither `udp` nor `tcp`, `NewResolver` is
    called; and with `-d ftp` while `statsd.New` fails, the process ends through
    `log.Fatal` before the `-d` value is checked. -/
theorem main_invalid_not_always_usage :
    (main sampleEnv { noFlags with p := some (lit "SCTP") } [lit "a.example"] =
        .logFatal (lit "unknown protocol sctp") ∧
      (main sampleEnv { noFlags with p := some (lit "SCTP") }
        [lit "a.example"]).usagePrinted = false) ∧
    (lit "UDP" ≠ lit "udp" ∧ lit "UDP" ≠ lit "tcp" ∧
      main sampleEnv { noFlags with p := some (lit "UDP") } [lit "a.example"] =
        .newResolver [lit "a.example."]
          { resolver := lit "127.0.0.1:53", domain := lit "a.example.",
            sdClient := { addr := lit "127.0.0.1:8125" },
            opts := { Concurrency := 4, MaxMessages := 100000, RequestsPerSecond := 0,
                      Protocol := lit "udp", DNSProtocol := lit "dns" } }) ∧
    (main noStatsdEnv { noFlags with d := some (lit "ftp") } [lit "a.example"] =
        .logFatal (lit "statsd: no client") ∧
      (main noStatsdEnv { noFlags with d := some (lit "ftp") }
        [lit "a.example"]).usagePrinted = false) := by
  decide

/-- C4 as amended.  Writing `f` for the flag variables after `flag.Parse`:
    (1) without a positional argument, or with `-concurrency` below 1, `main`
    prints the usage text and exits with status 1;
    (2) with a `-d` value other than `dns` and `doh`, once `statsd.New` has
    succeeded, `main` prints the usage text and exits with status 1;
    (3) with `-d dns` and a `-p` value whose lower-cased form is neither `udp`
    nor `tcp`, once the earlier checks have passed and every positional
    argument is non-empty, `main` ends through `log.Fatalf` with the message
    `unknown protocol ` followed by the lower-cased value, with exit status 1
    and without printing the usage text;
    (4) in each of these cases `NewResolver` is not called. -/
theorem main_invalid_arguments (env : Env) (g : Given) (args : List GoString) :
    ((args = [] ∨ (flagParse (init env.numCPU) g).concurrency < 1) →
      main env g args = .usageExit ∧ (main env g args).usagePrinted = true ∧
        (main env g args).exitStatus = some 1) ∧
    (∀ sd, env.statsdNew (lit "127.0.0.1:8125") = .ok sd →
      ¬ ((flagParse (init env.numCPU) g).dnsProtocol = lit "dns" ∨
         (flagParse (init env.numCPU) g).dnsProtocol = lit "doh") →
      main env g args = .usageExit ∧ (main env g args).usagePrinted = true ∧
        (main env g args).exitStatus = some 1) ∧
    (∀ sd, env.statsdNew (lit "127.0.0.1:8125") = .ok sd →
      args ≠ [] → 1 ≤ (flagParse (init env.numCPU) g).concurrency →
      (∀ e ∈ args, e ≠ []) →
      (flagParse (init env.numCPU) g).dnsProtocol = lit "dns" →
      env.toLower (flagParse (init env.numCPU) g).protocol ≠ lit "udp" →
      env.toLower (flagParse (init env.numCPU) g).protocol ≠ lit "tcp" →
      main env g args =
          .logFatal (lit "unknown protocol " ++
            env.toLower (flagParse (init env.numCPU) g).protocol) ∧
        (main env g args).usagePrinted = false ∧
        (main env g args).exitStatus = some 1) ∧
    ((args = [] ∨ (flagParse (init env.numCPU) g).concurrency < 1 ∨
        ¬ ((flagParse (init env.numCPU) g).dnsProtocol = lit "dns" ∨
           (flagParse (init env.numCPU) g).dnsProtocol = lit "doh") ∨
        ((flagParse (init env.numCPU) g).dnsProtocol = lit "dns" ∧
          env.toLower (flagParse (init env.numCPU) g).protocol ≠ lit "udp" ∧
          env.toLower (flagParse (init env.numCPU) g).protocol ≠ lit "tcp")) →
      ∀ tds c, main env g args ≠ .newResolver tds c) := by
  have husage : ∀ o : Outcome, o = .usageExit →
      o = .usageExit ∧ o.usagePrinted = true ∧ o.exitStatus = some 1 := by
    intro o ho
    subst ho
    exact ⟨rfl, rfl, rfl⟩
  refine ⟨?_, ?_, ?_, ?_⟩
  · intro h
    apply husage
    unfold main
    rcases h with h | h
    · subst h
      simp
    · simp only [h, if_true]
      split <;> rfl
  · intro sd hsd hd
    apply husage
    have hval : DNSProtocol.Validate (flagParse (init env.numCPU) g).dnsProtocol ≠ none :=
      fun hv => hd ((validate_none_iff _).mp hv)
    unfold main
    simp only [hsd, hval, ne_eq, not_false_eq_true, if_true]
    split
    · rfl
    · split <;> rfl
  · intro sd hsd hargs hconc hall hd hu ht
    have hval : DNSProtocol.Validate (flagParse (init env.numCPU) g).dnsProtocol = none :=
      (validate_none_iff _).mpr (Or.inl hd)
    have hlen : ¬ ((args.length : Int) < 1) := by
      have : 0 < args.length := List.length_pos.mpr hargs
      omega
    have hc : ¬ ((flagParse (init env.numCPU) g).concurrency < 1) := by omega
    have hproto : checkProtocol env.toLower (flagParse (init env.numCPU) g).dnsProtocol
        (flagParse (init env.numCPU) g).protocol =
        .error (lit "unknown protocol " ++
          env.toLower (flagParse (init env.numCPU) g).protocol) := by
      have hD : DNSProtocol.String DNS = lit "dns" := rfl
      unfold checkProtocol
      rw [hD, if_pos hd]
      simp only [hu, ht, if_false]
      rfl
    have hmain : main env g args =
        .logFatal (lit "unknown protocol " ++
          env.toLower (flagParse (init env.numCPU) g).protocol) := by
      unfold main
      simp only [hlen, hc, if_false, hsd, hval, ne_eq, not_true_eq_false,
        normalise_ok args hall, hproto]
    rw [hmain]
    exact ⟨rfl, rfl, rfl⟩
  · intro h tds c hmain
    obtain ⟨hargs, hconc, hval, _, sd, protocol, domain, _, hproto, _, _⟩ :=
      main_newResolver_inv hmain
    rcases h with h | h | h | ⟨hd, hu, ht⟩
    · exact hargs h
    · omega
    · exact h ((validate_none_iff _).mp hval)
    · obtain ⟨hp, hor⟩ := (checkProtocol_ok_inv hproto).1 hd
      rcases hor with hor | hor
      · exact hu (hp ▸ hor)
      · exact ht (hp ▸ hor)

/-- Witness for amended C4: no positional argument; `-d ftp`; `-p SCTP`;
    `-concurrency 0`. -/
theorem main_invalid_arguments_witness :
    main sampleEnv noFlags [] = .usageExit ∧
    main sampleEnv { noFlags with d := some (lit "ftp") } [lit "a.example"] = .usageExit ∧
    main sampleEnv { noFlags with p := some (lit "SCTP") } [lit "a.example"] =
      .logFatal (lit "unknown protocol " ++ asciiToLower (lit "SCTP")) ∧
    (∀ tds c, main sampleEnv { noFlags with concurrency := some 0 } [lit "a.example"] ≠
      .newResolver tds c) :=
  ⟨((main_invalid_arguments sampleEnv noFlags []).1 (Or.inl rfl)).1,
   ((main_invalid_arguments sampleEnv { noFlags with d := some (lit "ftp") }
      [lit "a.example"]).2.1 { addr := lit "127.0.0.1:8125" } rfl (by decide)).1,
   ((main_invalid_arguments sampleEnv { noFlags with p := some (lit "SCTP") }
      [lit "a.example"]).2.2.1 { addr := lit "127.0.0.1:8125" } rfl (by decide) (by decide)
      (by decide) (by decide) (by decide) (by decide)).1,
   (main_invalid_arguments sampleEnv { noFlags with concurrency := some 0 }
      [lit "a.example"]).2.2.2 (Or.inr (Or.inl (by decide)))⟩

/-! ## The dispatcher: exact cap -/

theorem countP_set_add (p : Worker → Bool) (l : List Worker) (w : Nat) (a b : Worker)
    (h : l.get? w = some a) :
    (l.set w b).countP p + (if p a = true then 1 else 0) =
      l.countP p + (if p b = true then 1 else 0) := by
  induction l generalizing w with
  | nil => simp at h
  | cons x xs ih =>
    cases w with
    | zero =>
      simp only [List.get?_cons_zero, Option.some.injEq] at h
      subst h
      simp only [List.set_cons_zero, List.countP_cons]
      omega
    | succ n =>
      simp only [List.get?_cons_succ] at h
      have := ih n h
      simp only [List.set_cons_succ, List.countP_cons]
      omega

theorem exited_mem_set (l : List Worker) (w : Nat) (b : Worker) (hb : b ≠ Worker.exited)
    (h : Worker.exited ∈ l.set w b) : Worker.exited ∈ l := by
  rcases List.mem_or_eq_of_mem_set h with h | h
  · exact h
  · exact absurd h.symm hb

theorem start_inv (C M D : Nat) :
    Inv C M (start { concurrency := C, cap := some M, domains := D }) := by
  refine ⟨by simp [start], ?_, by simp [start], ?_⟩
  · simp [start, List.countP_replicate, Worker.inFlight]
  · intro _ h
    simp [start, List.mem_replicate] at h

theorem step_inv (C M D : Nat) (s t : RunState) (e : Event) (hinv : Inv C M s)
    (hstep : step { concurrency := C, cap := some M, domains := D } s e = some t) :
    Inv C M t := by
  obtain ⟨hlen, hcount, hle, hexit⟩ := hinv
  cases e with
  | stop =>
    simp only [step, Option.some.injEq] at hstep
    subst hstep
    exact ⟨hlen, hcount, hle, fun h => absurd (show true = false from h) (by decide)⟩
  | iterate w =>
    simp only [step] at hstep
    split at hstep
    · rename_i hget
      have hc := countP_set_add Worker.inFlight s.workers w Worker.loopTop
      split at hstep
      · rename_i hstop
        injection hstep with hstep
        subst hstep
        have := hc Worker.exited hget
        simp [Worker.inFlight] at this
        refine ⟨by simpa using hlen, ?_, hle, ?_⟩
        · simp only
          omega
        · intro h
          simp only at h
          rw [hstop] at h
          cases h
      · rename_i hstop
        split at hstep
        · rename_i hcap
          injection hstep with hstep
          subst hstep
          have := hc Worker.exited hget
          simp [Worker.inFlight] at this
          have hM : M = s.claimed := by injection hcap
          refine ⟨by simpa using hlen, ?_, ?_, ?_⟩
          · simp only
            omega
          · simp only
            omega
          · intro _ _
            simp only
            omega
        · rename_i hcap
          injection hstep with hstep
          subst hstep
          have := hc Worker.acquiring hget
          simp [Worker.inFlight] at this
          have hM : M ≠ s.claimed := fun h => hcap (by rw [h])
          refine ⟨by simpa using hlen, ?_, ?_, ?_⟩
          · simp only
            omega
          · simp only
            omega
          · intro hs hmem
            simp only at hs hmem
            have := hexit hs (exited_mem_set _ _ _ (by decide) hmem)
            omega
    · cases hstep
  | granted w =>
    simp only [step] at hstep
    split at hstep
    · rename_i hget
      injection hstep with hstep
      subst hstep
      have := countP_set_add Worker.inFlight s.workers w Worker.acquiring Worker.fetching hget
      simp [Worker.inFlight] at this
      refine ⟨by simpa using hlen, ?_, hle, ?_⟩
      · simp only
        omega
      · intro hs hmem
        exact hexit hs (exited_mem_set _ _ _ (by decide) hmem)
    · cases hstep
  | next w =>
    simp only [step] at hstep
    split at hstep
    · rename_i hget
      injection hstep with hstep
      subst hstep
      have := countP_set_add Worker.inFlight s.workers w Worker.fetching
        (Worker.sending (s.cursor % D)) hget
      simp [Worker.inFlight] at this
      refine ⟨by simpa using hlen, ?_, hle, ?_⟩
      · simp only
        omega
      · intro hs hmem
        exact hexit hs (exited_mem_set _ _ _ (by simp) hmem)
    · cases hstep
  | sent w success =>
    simp only [step] at hstep
    split at hstep
    · rename_i d hget
      injection hstep with hstep
      subst hstep
      have := countP_set_add Worker.inFlight s.workers w (Worker.sending d)
        Worker.loopTop hget
      simp [Worker.inFlight] at this
      refine ⟨by simpa using hlen, ?_, hle, ?_⟩
      · simp only
        cases success <;> simp <;> omega
      · intro hs hmem
        exact hexit hs (exited_mem_set _ _ _ (by decide) hmem)
    · cases hstep

theorem run_inv (C M D : Nat) (es : List Event) :
    ∀ s t : RunState, Inv C M s →
      run { concurrency := C, cap := some M, domains := D } s es = some t → Inv C M t := by
  induction es with
  | nil =>
    intro s t hinv h
    simp only [run, Option.some.injEq] at h
    exact h ▸ hinv
  | cons e es ih =>
    intro s t hinv h
    simp only [run] at h
    split at h
    · cases h
    · rename_i u hu
      exact ih u t (step_inv C M D s u e hinv hu) h

theorem run_append (cfg : DispatchConfig) (es1 es2 : List Event) :
    ∀ s t : RunState, run cfg s es1 = some t → run cfg s (es1 ++ es2) = run cfg t es2 := by
  induction es1 with
  | nil =>
    intro s t h
    simp only [run, Option.some.injEq] at h
    subst h
    rfl
  | cons e es ih =>
    intro s t h
    simp only [run, List.cons_append] at h ⊢
    split at h
    · cases h
    · rename_i u hu
      exact ih u t h

theorem run_oneRound (C M D k a b c : Nat) (rest : List Worker) (hk : k ≠ M) :
    run { concurrency := C, cap := some M, domains := D }
        { claimed := k, succeeded := a, failed := b, stop := false, cursor := c
          workers := Worker.loopTop :: rest } oneRound =
      some { claimed := k + 1, succeeded := a + 1, failed := b, stop := false, cursor := c + 1
             workers := Worker.loopTop :: rest } := by
  have hne : ¬ (M = k) := fun h => hk h.symm
  simp [oneRound, run, step, hne]

theorem run_rounds (C M D : Nat) (rest : List Worker) :
    ∀ n k a b c : Nat, k + n ≤ M →
      run { concurrency := C, cap := some M, domains := D }
          { claimed := k, succeeded := a, failed := b, stop := false, cursor := c
            workers := Worker.loopTop :: rest } (rounds n) =
        some { claimed := k + n, succeeded := a + n, failed := b, stop := false
               cursor := c + n, workers := Worker.loopTop :: rest } := by
  intro n
  induction n with
  | zero => intro k a b c _; rfl
  | succ n ih =>
    intro k a b c h
    have hk : k ≠ M := by omega
    rw [rounds, run_append _ _ _ _ _ (run_oneRound C M D k a b c rest hk), ih (k + 1) (a + 1) b
      (c + 1) (by omega)]
    have e1 : k + 1 + n = k + (n + 1) := by omega
    have e2 : a + 1 + n = a + (n + 1) := by omega
    have e3 : c + 1 + n = c + (n + 1) := by omega
    rw [e1, e2, e3]

theorem run_iterateFrom (C M D a b c : Nat) :
    ∀ (n : Nat) (pre : List Worker),
      run { concurrency := C, cap := some M, domains := D }
          { claimed := M, succeeded := a, failed := b, stop := false, cursor := c
            workers := pre ++ List.replicate n Worker.loopTop } (iterateFrom pre.length n) =
        some { claimed := M, succeeded := a, failed := b, stop := false, cursor := c
               workers := pre ++ List.replicate n Worker.exited } := by
  intro n
  induction n with
  | zero => intro pre; rfl
  | succ n ih =>
    intro pre
    have hget : (pre ++ List.replicate (n + 1) Worker.loopTop).get? pre.length =
        some Worker.loopTop := by
      rw [List.get?_eq_getElem?, List.getElem?_append_right (Nat.le_refl _)]
      simp [List.replicate_succ]
    have hset : (pre ++ List.replicate (n + 1) Worker.loopTop).set pre.length Worker.exited =
        (pre ++ [Worker.exited]) ++ List.replicate n Worker.loopTop := by
      simp [List.replicate_succ, List.set_append]
    have hres : pre ++ List.replicate (n + 1) Worker.exited =
        (pre ++ [Worker.exited]) ++ List.replicate n Worker.exited := by
      simp [List.replicate_succ]
    have hlen : pre.length + 1 = (pre ++ [Worker.exited]).length := by simp
    simp only [iterateFrom, run, step, hget, hset]
    simp only [Bool.false_eq_true, if_false, if_true, Nat.add_sub_cancel]
    rw [hres, hlen]
    exact ih (pre ++ [Worker.exited])

/-- C8: exact cap.  In every run of the dispatcher with `C ≥ 1` sender loops
    and the finite send cap `M`: every reachable state satisfies
    succeeded + failed ≤ claimed ≤ M; a run that has completed normally (all
    workers exited, `Stop()` not called) has claimed exactly `M` sends; and
    such a run exists. -/
theorem exact_cap (C M D : Nat) (hC : 1 ≤ C) :
    (∀ es s, run { concurrency := C, cap := some M, domains := D }
        (start { concurrency := C, cap := some M, domains := D }) es = some s →
      s.succeeded + s.failed ≤ s.claimed ∧ s.claimed ≤ M) ∧
    (∀ es s, run { concurrency := C, cap := some M, domains := D }
        (start { concurrency := C, cap := some M, domains := D }) es = some s →
      completedNormally s = true → s.claimed = M) ∧
    (∃ es s, run { concurrency := C, cap := some M, domains := D }
        (start { concurrency := C, cap := some M, domains := D }) es = some s ∧
      completedNormally s = true ∧ s.claimed = M) := by
  refine ⟨?_, ?_, ?_⟩
  · intro es s h
    obtain ⟨_, hcount, hle, _⟩ := run_inv C M D es _ s (start_inv C M D) h
    exact ⟨by omega, hle⟩
  · intro es s h hdone
    obtain ⟨hlen, _, _, hexit⟩ := run_inv C M D es _ s (start_inv C M D) h
    simp only [completedNormally, Bool.and_eq_true, Bool.not_eq_true', List.all_eq_true,
      beq_iff_eq] at hdone
    obtain ⟨hstop, hall⟩ := hdone
    apply hexit hstop
    cases hw : s.workers with
    | nil => rw [hw] at hlen; simp at hlen; omega
    | cons w ws =>
      have : w = Worker.exited := hall w (by rw [hw]; exact List.mem_cons_self _ _)
      rw [this]
      exact List.mem_cons_self _ _
  · obtain ⟨n, rfl⟩ : ∃ n, C = n + 1 := ⟨C - 1, by omega⟩
    refine ⟨rounds M ++ iterateFrom 0 (n + 1),
      { claimed := M, succeeded := M, failed := 0, stop := false, cursor := M
        workers := List.replicate (n + 1) Worker.exited }, ?_, ?_, rfl⟩
    · have h1 := run_rounds (n + 1) M D (List.replicate n Worker.loopTop) M 0 0 0 0 (by omega)
      simp only [Nat.zero_add] at h1
      have hstart : start { concurrency := n + 1, cap := some M, domains := D } =
          { claimed := 0, succeeded := 0, failed := 0, stop := false, cursor := 0
            workers := Worker.loopTop :: List.replicate n Worker.loopTop } := by
        simp [start, List.replicate_succ]
      rw [hstart, run_append _ _ _ _ _ h1]
      have h2 := run_iterateFrom (n + 1) M D M 0 M (n + 1) []
      simpa [List.replicate_succ] using h2
    · simp [completedNormally]

/-- Witness for C8: two sender loops, cap 3, two domains. -/
theorem exact_cap_witness :
    (∀ es s, run { concurrency := 2, cap := some 3, domains := 2 }
        (start { concurrency := 2, cap := some 3, domains := 2 }) es = some s →
      s.succeeded + s.failed ≤ s.claimed ∧ s.claimed ≤ 3) ∧
    (∀ es s, run { concurrency := 2, cap := some 3, domains := 2 }
        (start { concurrency := 2, cap := some 3, domains := 2 }) es = some s →
      completedNormally s = true → s.claimed = 3) ∧
    (∃ es s, run { concurrency := 2, cap := some 3, domains := 2 }
        (start { concurrency := 2, cap := some 3, domains := 2 }) es = some s ∧
      completedNormally s = true ∧ s.claimed = 3) :=
  exact_cap 2 3 2 (by decide)

end Dnsstress
